import Mathlib

/-!
Verification of the Aetherial Gardens sliding-tile game.

Shallow embedding of the puzzle engine (game/puzzle.py), the star rating
function (game/star.py), the persistence layer (game/save.py) and the
relevant fragments of the main loop (game/main.py).

Pixel geometry (tile rects) carries no information beyond the grid cell a
tile occupies: Board._swap realigns both rects to their grid cells after
every swap, so the embedding tracks tile numbers per grid cell only.
Python runtime errors (random.choice on an empty list) are modelled as
Option.none.
-/

namespace AetherialGardens

/-- STAR_THRESHOLDS from game/star.py: size to
    (max moves for 3 stars, max moves for 2 stars). Sizes absent from the
    Python dict are Option.none here. -/
def STAR_THRESHOLDS (size : Nat) : Option (Nat × Nat) :=
  match size with
  | 3 => some (20, 30)
  | 4 => some (40, 60)
  | 5 => some (80, 120)
  | _ => none

/-- StarHUD.compute_rating from game/star.py. The Python code falls back to
    (float infinity, float infinity) when the size is not in the table, and
    move_count is then at most the first threshold, so the none branch
    returns 3. -/
def compute_rating (board_size move_count : Nat) : Nat :=
  match STAR_THRESHOLDS board_size with
  | none => 3
  | some (thr_3, thr_2) =>
    if move_count ≤ thr_3 then 3
    else if move_count ≤ thr_2 then 2
    else 1

/-- Modelled from the spec: star_key is imported from game/save.py by
    main.py and ui.py but its definition is missing from the sources at
    hand; the spec fixes the size-key format as the literal string
    "{rows}x{rows}", e.g. edge length 3 gives "3x3". -/
def star_key (rows : Nat) : String :=
  toString rows ++ "x" ++ toString rows

/-! ## The board (game/puzzle.py)

A Board keeps a rows x cols grid of tile numbers (0 is the empty slot)
and the cached coordinates of the empty slot, exactly as the Python
Board keeps self.tiles and self.empty_pos. -/

structure Board where
  rows : Nat
  cols : Nat
  tiles : List (List Nat)
  empty_pos : Nat × Nat
deriving Repr, DecidableEq

/-- Read tiles[r][c]; none when the index is out of range. -/
def getCell (tiles : List (List Nat)) (r c : Nat) : Option Nat :=
  tiles[r]?.bind fun row => row[c]?

/-- Write tiles[r][c] := v; unchanged when the index is out of range. -/
def setCell (tiles : List (List Nat)) (r c v : Nat) : List (List Nat) :=
  match tiles[r]? with
  | none => tiles
  | some row => tiles.set r (row.set c v)

/-- Board._create_tiles: row-major sequential numbers with the sentinel 0
    at the bottom-right cell, and empty_pos set to that cell. -/
def createTiles (rows cols : Nat) : Board :=
  { rows := rows
    cols := cols
    tiles :=
      (List.range rows).map fun r =>
        (List.range cols).map fun c =>
          if r = rows - 1 ∧ c = cols - 1 then 0 else r * cols + c + 1
    empty_pos := (rows - 1, cols - 1) }

/-- Board._neighbors: the up-to-4 grid-adjacent cells of (row, col), in the
    source's order up, down, left, right. -/
def Board.neighbors (b : Board) (row col : Nat) : List (Nat × Nat) :=
  (if row > 0 then [(row - 1, col)] else []) ++
  (if row < b.rows - 1 then [(row + 1, col)] else []) ++
  (if col > 0 then [(row, col - 1)] else []) ++
  (if col < b.cols - 1 then [(row, col + 1)] else [])

/-- Board._swap restricted to tile numbers (the rect realignment it also
    performs is a pure function of the grid cell). -/
def Board.swap (b : Board) (pa pb : Nat × Nat) : Board :=
  let va := (getCell b.tiles pa.1 pa.2).getD 0
  let vb := (getCell b.tiles pb.1 pb.2).getD 0
  { b with tiles := setCell (setCell b.tiles pa.1 pa.2 vb) pb.1 pb.2 va }

/-- Board.click_at, at grid-cell granularity: the Python scans all tiles
    for the one whose rect contains the mouse position (the rects are
    disjoint and grid-aligned, so at most one cell matches; a click hitting
    no tile is the no-op case, modelled by an out-of-range target). A move
    happens only when the clicked tile is not the empty slot and is a
    neighbor of empty_pos; otherwise nothing changes. -/
def Board.click_at (b : Board) (target : Nat × Nat) : Board :=
  match getCell b.tiles target.1 target.2 with
  | none => b
  | some n =>
    if n ≠ 0 ∧ target ∈ b.neighbors b.empty_pos.1 b.empty_pos.2 then
      let b' := b.swap target b.empty_pos
      { b' with empty_pos := target }
    else b

/-- One iteration of Board.shuffle: pick a member of the neighbor list of
    the empty slot (random.choice modelled by an arbitrary index k reduced
    modulo the list length) and swap it with the empty slot. random.choice
    on an empty list raises in Python; that is the none result here. -/
def Board.shuffleStep (b : Board) (k : Nat) : Option Board :=
  match (b.neighbors b.empty_pos.1 b.empty_pos.2)[
      k % (b.neighbors b.empty_pos.1 b.empty_pos.2).length]? with
  | none => none
  | some target => some { b.swap b.empty_pos target with empty_pos := target }

/-- Board.shuffle(moves): the choice stream ks has one entry per move, so
    shuffle(n) is modelled by any ks with ks.length = n. -/
def Board.shuffle (b : Board) (ks : List Nat) : Option Board :=
  ks.foldlM Board.shuffleStep b

/-- Board.__init__ (without an image surface): build the sequential grid,
    then shuffle 80 times; ks models the 80 random choices. -/
def Board.init (rows cols : Nat) (ks : List Nat) : Option Board :=
  (createTiles rows cols).shuffle ks

/-- Board.is_solved: every cell holds its row-major sequential value, with
    the sentinel 0 at the bottom-right cell. -/
def Board.is_solved (b : Board) : Bool :=
  (List.range b.rows).all fun r =>
    (List.range b.cols).all fun c =>
      let expected := if r = b.rows - 1 ∧ c = b.cols - 1 then 0 else r * b.cols + c + 1
      (getCell b.tiles r c).getD 0 = expected

/-- The flat list of all tile numbers in row-major order. -/
def Board.flatTiles (b : Board) : List Nat :=
  b.tiles.flatten

/-- The board invariant: the grid has shape rows x cols, the tile numbers
    are a permutation of 0..rows*cols-1 (hence no duplicates and exactly
    one 0), and empty_pos is an in-range cell holding the 0 tile. -/
def Board.wf (b : Board) : Prop :=
  b.tiles.length = b.rows ∧
  (∀ row ∈ b.tiles, row.length = b.cols) ∧
  b.flatTiles.Perm (List.range (b.rows * b.cols)) ∧
  getCell b.tiles b.empty_pos.1 b.empty_pos.2 = some 0

instance (b : Board) : Decidable b.wf := by
  unfold Board.wf
  infer_instance

/-- A board is solvable when some finite sequence of clicks reaches the
    solved configuration. -/
def Board.Solvable (b : Board) : Prop :=
  ∃ seq : List (Nat × Nat), (seq.foldl Board.click_at b).is_solved = true

/-- The boards the game can ever hold: a constructed board (rows, cols at
    least 1; the Python constructor shuffles 80 times, covered by an
    arbitrary choice stream), possibly further mutated by click_at and
    shuffle calls. -/
inductive Reachable : Board → Prop where
  | init (rows cols : Nat) (ks : List Nat) (b : Board) (hr : 1 ≤ rows)
      (hc : 1 ≤ cols) (h : Board.init rows cols ks = some b) : Reachable b
  | click (b : Board) (t : Nat × Nat) (h : Reachable b) : Reachable (b.click_at t)
  | shuffled (b : Board) (ks : List Nat) (b' : Board) (h : Reachable b)
      (hs : b.shuffle ks = some b') : Reachable b'

/-! ## Persistence (game/save.py)

JSON values as stored in save_data.json, with assoc-list objects; key
assignment updates an existing key in place and otherwise appends, like a
Python dict. -/

inductive JVal where
  | null
  | num (n : Int)
  | bool (b : Bool)
  | str (s : String)
  | obj (fields : List (String × JVal))

/-- Python d.get(k): some value when the key is present. -/
def jget (fields : List (String × JVal)) (k : String) : Option JVal :=
  match fields with
  | [] => none
  | (k', v) :: rest => if k' = k then some v else jget rest k

/-- Python d[k] = v. -/
def jset (fields : List (String × JVal)) (k : String) (v : JVal) :
    List (String × JVal) :=
  match fields with
  | [] => [(k, v)]
  | (k', v') :: rest =>
    if k' = k then (k', v) :: rest else (k', v') :: jset rest k v

/-- Python del d[k]. -/
def jdel (fields : List (String × JVal)) (k : String) : List (String × JVal) :=
  match fields with
  | [] => []
  | (k', v') :: rest => if k' = k then rest else (k', v') :: jdel rest k

/-- Python d.setdefault(k, v). -/
def jsetdefault (fields : List (String × JVal)) (k : String) (v : JVal) :
    List (String × JVal) :=
  match jget fields k with
  | some _ => fields
  | none => jset fields k v

/-- The default record _ensure_file writes when save_data.json is absent. -/
def ensureFileDefault : List (String × JVal) :=
  [("best_3x3", JVal.null), ("best_4x4", JVal.null), ("best_5x5", JVal.null),
   ("unlocked", JVal.bool true)]

/-- load_progress applied to the parsed file contents: if a nested
    best_moves dict is present it is flattened into best_3x3/4x4/5x5 keys
    (absent sizes give None) and removed, then the flat keys and unlocked
    are defaulted in. -/
def load_progress (data : List (String × JVal)) : List (String × JVal) :=
  let data :=
    match jget data "best_moves" with
    | some (JVal.obj old) =>
      let data := jset data "best_3x3" ((jget old "3x3").getD JVal.null)
      let data := jset data "best_4x4" ((jget old "4x4").getD JVal.null)
      let data := jset data "best_5x5" ((jget old "5x5").getD JVal.null)
      jdel data "best_moves"
    | _ => data
  let data := jsetdefault data "best_3x3" JVal.null
  let data := jsetdefault data "best_4x4" JVal.null
  let data := jsetdefault data "best_5x5" JVal.null
  jsetdefault data "unlocked" (JVal.bool true)

/-- load_progress when no save file exists: _ensure_file first writes the
    default record, which load_progress then reads back. -/
def load_progress_no_file : List (String × JVal) :=
  load_progress ensureFileDefault

/-- save_progress: the record actually serialized to disk. A nested
    best_moves dict, if present, is flattened into the best_3x3/4x4/5x5
    keys (each falling back to the flat key already in data, Python
    old.get(k, data.get(flat))) and removed before writing. -/
def save_progress (data : List (String × JVal)) : List (String × JVal) :=
  match jget data "best_moves" with
  | some (JVal.obj old) =>
    let data := jset data "best_3x3"
      ((jget old "3x3").getD ((jget data "best_3x3").getD JVal.null))
    let data := jset data "best_4x4"
      ((jget old "4x4").getD ((jget data "best_4x4").getD JVal.null))
    let data := jset data "best_5x5"
      ((jget old "5x5").getD ((jget data "best_5x5").getD JVal.null))
    jdel data "best_moves"
  | _ => data

/-! ## Main-loop fragments (game/main.py)

The in-memory progress dict as used by main.py: the nested best_moves and
best_stars dicts (absent until the first solve of the session writes
them, Python "key in dict" and setdefault semantics), holding integer
move counts / ratings. -/

structure Progress where
  best_moves : Option (List (String × Nat))
  best_stars : Option (List (String × Nat))
deriving Repr, DecidableEq

/-- Python nested dict read d.get(k): none when absent. -/
def nget (m : List (String × Nat)) (k : String) : Option Nat :=
  match m with
  | [] => none
  | (k', v) :: rest => if k' = k then some v else nget rest k

/-- Python nested dict write d[k] = v. -/
def nset (m : List (String × Nat)) (k : String) (v : Nat) : List (String × Nat) :=
  match m with
  | [] => [(k, v)]
  | (k', v') :: rest =>
    if k' = k then (k', v) :: rest else (k', v') :: nset rest k v

/-- start_game (main.py lines 121-135), restricted to the move counter:
    hud.move_count is set to 0 and then, when progress has a best_moves
    entry for the level's size key, overwritten with that stored best. -/
def startGameMoveCount (progress : Progress) (rows : Nat) : Nat :=
  let mc := 0
  match progress.best_moves with
  | none => mc
  | some m =>
    match nget m (star_key rows) with
    | none => mc
    | some best => best

/-- The state touched by the solved-handling block of the render section. -/
structure PlayFrame where
  board : Board
  move_count : Nat
  rating : Nat
  progress : Progress
deriving Repr, DecidableEq

/-- One frame of the PLAYING/PAUSED render path restricted to the solved
    handling (main.py lines 536-552): every frame in which
    board.is_solved() holds recomputes the rating, re-runs the best-move
    and best-star updates, and plays the "complete" cue again; the second
    component lists the audio cues emitted during the frame. -/
def solvedFrame (rows : Nat) (s : PlayFrame) : PlayFrame × List String :=
  if s.board.is_solved then
    let rating := compute_rating rows s.move_count
    let key := star_key rows
    let bm := nget (s.progress.best_moves.getD []) key
    let p1 :=
      match bm with
      | none =>
        { s.progress with
          best_moves := some (nset (s.progress.best_moves.getD []) key s.move_count) }
      | some best =>
        if s.move_count < best then
          { s.progress with
            best_moves := some (nset (s.progress.best_moves.getD []) key s.move_count) }
        else s.progress
    let best_star := (nget (p1.best_stars.getD []) key).getD 0
    let p2 :=
      if rating > best_star then
        { p1 with best_stars := some (nset (p1.best_stars.getD []) key rating) }
      else p1
    ({ s with rating := max 0 (min 3 rating), progress := p2 }, ["complete"])
  else (s, [])

/-! ## Theorems -/

/-- C7: compute_rating returns 3 when moves is at most the three-star
    ceiling, 2 when at most the two-star ceiling, 1 otherwise, with the
    table (20,30)/(40,60)/(80,120) for edges 3/4/5; any edge outside the
    table always rates 3; the result is always in the set containing 1, 2
    and 3; and the boundary values at edge 3 are 3, 2, 1 for 20, 21, 31
    moves. -/
theorem C7_compute_rating_spec :
    (∀ edge m t3 t2, STAR_THRESHOLDS edge = some (t3, t2) →
      compute_rating edge m = if m ≤ t3 then 3 else if m ≤ t2 then 2 else 1) ∧
    (∀ edge m, STAR_THRESHOLDS edge = none → compute_rating edge m = 3) ∧
    (∀ edge, edge ≠ 3 → edge ≠ 4 → edge ≠ 5 → ∀ m, compute_rating edge m = 3) ∧
    (∀ edge m, compute_rating edge m = 1 ∨ compute_rating edge m = 2 ∨
      compute_rating edge m = 3) ∧
    STAR_THRESHOLDS 3 = some (20, 30) ∧ STAR_THRESHOLDS 4 = some (40, 60) ∧
    STAR_THRESHOLDS 5 = some (80, 120) ∧
    compute_rating 3 20 = 3 ∧ compute_rating 3 21 = 2 ∧ compute_rating 3 31 = 1 := by
  refine ⟨?_, ?_, ?_, ?_, rfl, rfl, rfl, rfl, rfl, rfl⟩
  · intro edge m t3 t2 h
    simp only [compute_rating, h]
  · intro edge m h
    simp only [compute_rating, h]
  · intro edge h3 h4 h5 m
    have h : STAR_THRESHOLDS edge = none := by
      unfold STAR_THRESHOLDS
      match edge, h3, h4, h5 with
      | 0, _, _, _ => rfl
      | 1, _, _, _ => rfl
      | 2, _, _, _ => rfl
      | 3, h3, _, _ => exact absurd rfl h3
      | 4, _, h4, _ => exact absurd rfl h4
      | 5, _, _, h5 => exact absurd rfl h5
      | n + 6, _, _, _ => rfl
    simp only [compute_rating, h]
  · intro edge m
    unfold compute_rating
    rcases STAR_THRESHOLDS edge with _ | ⟨t3, t2⟩
    · exact Or.inr (Or.inr rfl)
    · dsimp only
      split_ifs <;> simp

/-- C7 witness: the universally quantified conjuncts applied at concrete
    inputs. -/
theorem C7_compute_rating_spec_witness :
    compute_rating 4 40 = (if 40 ≤ 40 then 3 else if 40 ≤ 60 then 2 else 1) ∧
    compute_rating 7 1000 = 3 ∧
    (compute_rating 5 81 = 1 ∨ compute_rating 5 81 = 2 ∨ compute_rating 5 81 = 3) :=
  ⟨C7_compute_rating_spec.1 4 40 40 60 rfl,
   C7_compute_rating_spec.2.2.1 7 (by decide) (by decide) (by decide) 1000,
   C7_compute_rating_spec.2.2.2.1 5 81⟩

/-- C10: for a fixed board size the rating never increases as the move
    count grows. -/
theorem C10_compute_rating_antitone (s m1 m2 : Nat) (h : m1 ≤ m2) :
    compute_rating s m2 ≤ compute_rating s m1 := by
  unfold compute_rating
  rcases STAR_THRESHOLDS s with _ | ⟨t3, t2⟩
  · exact le_refl _
  · dsimp only
    split_ifs <;> omega

/-- C10 witness at size 3, moves 5 and 25. -/
theorem C10_compute_rating_antitone_witness :
    compute_rating 3 25 ≤ compute_rating 3 5 :=
  C10_compute_rating_antitone 3 5 25 (by decide)

/-- C1, code evaluated at the failing input: on a file holding the legacy
    flat key best_3x3 = 18, load_progress returns the flat key unchanged
    and builds no nested best_moves map; and save_progress, given a record
    holding the nested map, writes the flat key shape (best_3x3 = 18, no
    best_moves key) to disk. This is the reverse of the migration the
    claim states, and it contradicts main.py and ui.py, which read and
    write bests only through progress["best_moves"] /
    progress["best_stars"]. -/
theorem C1_flat_keys_kept_nested_flattened :
    jget (load_progress [("best_3x3", JVal.num 18)]) "best_3x3"
      = some (JVal.num 18) ∧
    jget (load_progress [("best_3x3", JVal.num 18)]) "best_moves" = none ∧
    jget (save_progress [("best_moves", JVal.obj [("3x3", JVal.num 18)])])
      "best_3x3" = some (JVal.num 18) ∧
    jget (save_progress [("best_moves", JVal.obj [("3x3", JVal.num 18)])])
      "best_moves" = none :=
  ⟨rfl, rfl, rfl, rfl⟩

/-- C9 counterexample: with no persisted file, the record load_progress
    returns has no volume key (hence no volume 0.4), no muted key, and no
    best_moves / best_stars maps at all. -/
theorem C9_counterexample :
    jget load_progress_no_file "volume" = none ∧
    jget load_progress_no_file "muted" = none ∧
    jget load_progress_no_file "best_moves" = none ∧
    jget load_progress_no_file "best_stars" = none :=
  ⟨rfl, rfl, rfl, rfl⟩

/-- C9 amended: with no persisted file, load_progress returns exactly the
    flat record best_3x3 = best_4x4 = best_5x5 = None, unlocked = True;
    the 0.4 volume and unmuted defaults exist only as .get fallbacks in
    the callers, not in the returned record. -/
theorem C9_no_file_default_record :
    load_progress_no_file =
      [("best_3x3", JVal.null), ("best_4x4", JVal.null),
       ("best_5x5", JVal.null), ("unlocked", JVal.bool true)] :=
  rfl

/-- C2, code evaluated at the failing input: with the board already
    solved, the solved-handling block of the render path emits the
    complete cue on a first frame and again on the immediately following
    frame - there is no false-to-true edge detection, so the cue and the
    rating/record computations re-run every frame while the board stays
    solved. -/
theorem C2_complete_cue_every_frame :
    (solvedFrame 3 ⟨createTiles 3 3, 18, 0, ⟨none, none⟩⟩).2 = ["complete"] ∧
    (solvedFrame 3 (solvedFrame 3 ⟨createTiles 3 3, 18, 0, ⟨none, none⟩⟩).1).2
      = ["complete"] :=
  ⟨rfl, rfl⟩

/-! ### Cell-level lemmas about the grid representation -/

theorem set_eq_self_of_getElem {α : Type} {l : List α} {i : Nat} {v : α}
    (h : l[i]? = some v) : l.set i v = l := by
  apply List.ext_getElem?
  intro n
  by_cases hn : i = n
  · subst hn
    rw [List.getElem?_set_self (List.getElem?_eq_some.mp h).1, h]
  · rw [List.getElem?_set_ne hn]

theorem getCell_eq_some {t : List (List Nat)} {r c v : Nat} :
    getCell t r c = some v ↔ ∃ row, t[r]? = some row ∧ row[c]? = some v := by
  unfold getCell
  cases t[r]? <;> simp

theorem getCell_isSome_of_shape {t : List (List Nat)} {rows cols r c : Nat}
    (hlen : t.length = rows) (hrow : ∀ row ∈ t, row.length = cols)
    (hr : r < rows) (hc : c < cols) : ∃ v, getCell t r c = some v := by
  have hr' : r < t.length := hlen ▸ hr
  have hclen : t[r].length = cols := hrow _ (List.getElem_mem hr')
  exact ⟨t[r][c], getCell_eq_some.mpr
    ⟨t[r], List.getElem?_eq_getElem hr', List.getElem?_eq_getElem (hclen ▸ hc)⟩⟩

theorem length_setCell (t : List (List Nat)) (r c v : Nat) :
    (setCell t r c v).length = t.length := by
  unfold setCell
  cases t[r]? <;> simp

theorem rows_setCell {t : List (List Nat)} {cols : Nat}
    (hrow : ∀ row ∈ t, row.length = cols) (r c v : Nat) :
    ∀ row ∈ setCell t r c v, row.length = cols := by
  unfold setCell
  cases h : t[r]? with
  | none => exact hrow
  | some row =>
    intro row' hmem
    rcases List.mem_or_eq_of_mem_set hmem with h' | rfl
    · exact hrow _ h'
    · rw [List.length_set]
      exact hrow _ (List.getElem?_mem h)

theorem setCell_of_getElem {t : List (List Nat)} {r : Nat} {row : List Nat}
    (h : t[r]? = some row) (c v : Nat) :
    setCell t r c v = t.set r (row.set c v) := by
  unfold setCell
  rw [h]

theorem setCell_of_none {t : List (List Nat)} {r : Nat}
    (h : t[r]? = none) (c v : Nat) : setCell t r c v = t := by
  unfold setCell
  rw [h]

theorem getCell_setCell_self {t : List (List Nat)} {r c a : Nat} (v : Nat)
    (h : getCell t r c = some a) :
    getCell (setCell t r c v) r c = some v := by
  rcases getCell_eq_some.mp h with ⟨row, hrg, hcg⟩
  have hr : r < t.length := (List.getElem?_eq_some.mp hrg).1
  have hc : c < row.length := (List.getElem?_eq_some.mp hcg).1
  rw [setCell_of_getElem hrg]
  exact getCell_eq_some.mpr ⟨row.set c v,
    List.getElem?_set_self (by simpa using hr),
    List.getElem?_set_self (by simpa using hc)⟩

theorem getCell_setCell_ne {t : List (List Nat)} {r c r' c' : Nat} (v : Nat)
    (h : (r, c) ≠ (r', c')) :
    getCell (setCell t r c v) r' c' = getCell t r' c' := by
  cases hrg : t[r]? with
  | none => rw [setCell_of_none hrg]
  | some row =>
    rw [setCell_of_getElem hrg]
    by_cases hrr : r = r'
    · subst hrr
      have hcc : c ≠ c' := fun hc => h (by rw [hc])
      unfold getCell
      have hr : r < t.length := (List.getElem?_eq_some.mp hrg).1
      rw [List.getElem?_set_self (by simpa using hr), hrg]
      show (row.set c v)[c']? = row[c']?
      rw [List.getElem?_set_ne hcc]
    · unfold getCell
      rw [List.getElem?_set_ne hrr]

theorem setCell_eq_self_of_getCell {t : List (List Nat)} {r c v : Nat}
    (h : getCell t r c = some v) : setCell t r c v = t := by
  rcases getCell_eq_some.mp h with ⟨row, hrg, hcg⟩
  rw [setCell_of_getElem hrg, set_eq_self_of_getElem hcg,
    set_eq_self_of_getElem hrg]

theorem setCell_setCell_same (t : List (List Nat)) (r c v w : Nat) :
    setCell (setCell t r c v) r c w = setCell t r c w := by
  cases hrg : t[r]? with
  | none => rw [setCell_of_none hrg, setCell_of_none hrg]
  | some row =>
    have hr : r < t.length := (List.getElem?_eq_some.mp hrg).1
    have hset : (t.set r (row.set c v))[r]? = some (row.set c v) :=
      List.getElem?_set_self (by simpa using hr)
    rw [setCell_of_getElem hrg, setCell_of_getElem hset,
      setCell_of_getElem hrg, List.set_set, List.set_set]

theorem setCell_cons_zero (row : List Nat) (rest : List (List Nat)) (c v : Nat) :
    setCell (row :: rest) 0 c v = row.set c v :: rest := by
  rw [setCell_of_getElem (show (row :: rest)[0]? = some row by simp)]
  rfl

theorem setCell_cons_succ (row : List Nat) (rest : List (List Nat))
    (n c v : Nat) :
    setCell (row :: rest) (n + 1) c v = row :: setCell rest n c v := by
  cases h : rest[n]? with
  | none =>
    rw [setCell_of_none (show (row :: rest)[n + 1]? = none by simpa using h),
      setCell_of_none h]
  | some row' =>
    rw [setCell_of_getElem
        (show (row :: rest)[n + 1]? = some row' by simpa using h),
      setCell_of_getElem h]
    rfl

theorem count_set_balance (l : List Nat) (i a v x : Nat) (h : l[i]? = some a) :
    (l.set i v).count x + (if a = x then 1 else 0)
      = l.count x + (if v = x then 1 else 0) := by
  induction l generalizing i with
  | nil => simp at h
  | cons hd tl ih =>
    cases i with
    | zero =>
      have ha : hd = a := by simpa using h
      subst ha
      simp only [List.set, List.count_cons, beq_iff_eq]
      split_ifs <;> omega
    | succ n =>
      have h' : tl[n]? = some a := by simpa using h
      have := ih n h'
      simp only [List.set, List.count_cons, beq_iff_eq]
      split_ifs at this ⊢ <;> omega

theorem count_setCell_balance (t : List (List Nat)) (r c a v x : Nat)
    (h : getCell t r c = some a) :
    (setCell t r c v).flatten.count x + (if a = x then 1 else 0)
      = t.flatten.count x + (if v = x then 1 else 0) := by
  induction t generalizing r with
  | nil => simp [getCell] at h
  | cons row rest ih =>
    cases r with
    | zero =>
      have hc : row[c]? = some a := by simpa [getCell] using h
      rw [setCell_cons_zero]
      simp only [List.flatten_cons, List.count_append]
      have := count_set_balance row c a v x hc
      omega
    | succ n =>
      have h' : getCell rest n c = some a := by simpa [getCell] using h
      rw [setCell_cons_succ]
      simp only [List.flatten_cons, List.count_append]
      have := ih n h'
      omega

theorem perm_swap_setCell (t : List (List Nat)) (r c r' c' a b : Nat)
    (h1 : getCell t r c = some a) (h2 : getCell t r' c' = some b)
    (hne : (r, c) ≠ (r', c')) :
    ((setCell (setCell t r c b) r' c' a).flatten).Perm t.flatten := by
  rw [List.perm_iff_count]
  intro x
  have e1 := count_setCell_balance t r c a b x h1
  have h2' : getCell (setCell t r c b) r' c' = some b := by
    rw [getCell_setCell_ne _ hne]
    exact h2
  have e2 := count_setCell_balance (setCell t r c b) r' c' b a x h2'
  omega

/-! ### The freshly created grid -/

theorem flatten_grid_map (f : Nat → Nat) (rows cols : Nat) :
    ((List.range rows).map fun r =>
      (List.range cols).map fun c => f (r * cols + c)).flatten
      = (List.range (rows * cols)).map f := by
  induction rows with
  | zero => simp
  | succ n ih =>
    rw [List.range_succ, List.map_append, List.flatten_append, ih]
    have hm : (n + 1) * cols = n * cols + cols := by rw [Nat.succ_mul]
    rw [hm, List.range_add, List.map_append, List.map_map]
    simp only [List.map_cons, List.map_nil, List.flatten_cons, List.flatten_nil,
      List.append_nil, List.map_map]
    congr 1

theorem perm_range_shift (m : Nat) :
    (((List.range m).map (fun i => i + 1)) ++ [0]).Perm (List.range (m + 1)) := by
  have h2 : List.range (m + 1) = 0 :: (List.range m).map (fun i => i + 1) := by
    rw [List.range_succ_eq_map]
  rw [h2]
  exact List.perm_append_comm

theorem cell_index_iff (rows cols r c : Nat) (hrow : r < rows) (hcol : c < cols) :
    (r = rows - 1 ∧ c = cols - 1) ↔ r * cols + c = rows * cols - 1 := by
  obtain ⟨rr, rfl⟩ : ∃ rr, rows = rr + 1 := ⟨rows - 1, by omega⟩
  obtain ⟨cc, rfl⟩ : ∃ cc, cols = cc + 1 := ⟨cols - 1, by omega⟩
  constructor
  · rintro ⟨rfl, rfl⟩
    simp only [Nat.add_sub_cancel, Nat.succ_mul, Nat.mul_succ]
    omega
  · intro h
    obtain ⟨d, rfl⟩ : ∃ d, rr = r + d := ⟨rr - r, by omega⟩
    obtain ⟨e, rfl⟩ : ∃ e, cc = c + e := ⟨cc - c, by omega⟩
    simp only [Nat.mul_add, Nat.add_mul, Nat.mul_one, Nat.one_mul] at h
    constructor <;> omega

theorem getCell_createTiles (rows cols r c : Nat) (hr : r < rows)
    (hc : c < cols) :
    getCell (createTiles rows cols).tiles r c =
      some (if r = rows - 1 ∧ c = cols - 1 then 0 else r * cols + c + 1) := by
  unfold createTiles getCell
  simp [List.getElem?_map, List.getElem?_range hr, List.getElem?_range hc]

theorem createTiles_tiles_eq (rows cols : Nat) :
    (createTiles rows cols).tiles =
      (List.range rows).map fun r =>
        (List.range cols).map fun c =>
          (fun i => if i = rows * cols - 1 then 0 else i + 1) (r * cols + c) := by
  unfold createTiles
  apply List.map_congr_left
  intro r hrr
  apply List.map_congr_left
  intro c hcc
  exact if_congr
    (cell_index_iff rows cols r c (List.mem_range.mp hrr) (List.mem_range.mp hcc))
    rfl rfl

theorem perm_createTiles_flatten (rows cols : Nat) (hr : 1 ≤ rows)
    (hc : 1 ≤ cols) :
    (createTiles rows cols).flatTiles.Perm (List.range (rows * cols)) := by
  unfold Board.flatTiles
  rw [createTiles_tiles_eq,
    flatten_grid_map (fun i => if i = rows * cols - 1 then 0 else i + 1) rows cols]
  obtain ⟨m, hm⟩ : ∃ m, rows * cols = m + 1 :=
    ⟨rows * cols - 1, by have := Nat.mul_le_mul hr hc; omega⟩
  rw [hm]
  have hL : (List.range (m + 1)).map (fun i => if i = m + 1 - 1 then 0 else i + 1)
      = (List.range m).map (fun i => i + 1) ++ [0] := by
    rw [List.range_succ, List.map_append]
    have h1 : (List.range m).map (fun i => if i = m + 1 - 1 then 0 else i + 1)
        = (List.range m).map (fun i => i + 1) := by
      apply List.map_congr_left
      intro i hi
      have him : i < m := List.mem_range.mp hi
      simp only [Nat.add_sub_cancel]
      rw [if_neg (by omega)]
    rw [h1]
    simp
  rw [hL]
  exact perm_range_shift m

theorem wf_createTiles (rows cols : Nat) (hr : 1 ≤ rows) (hc : 1 ≤ cols) :
    (createTiles rows cols).wf := by
  refine ⟨?_, ?_, perm_createTiles_flatten rows cols hr hc, ?_⟩
  · unfold createTiles
    simp
  · unfold createTiles
    intro row hrow
    simp only [List.mem_map, List.mem_range] at hrow
    obtain ⟨r, _, rfl⟩ := hrow
    simp
  · show getCell (createTiles rows cols).tiles (rows - 1) (cols - 1) = some 0
    rw [getCell_createTiles rows cols _ _ (by omega) (by omega)]
    simp

theorem is_solved_createTiles (rows cols : Nat) :
    (createTiles rows cols).is_solved = true := by
  unfold Board.is_solved
  rw [List.all_eq_true]
  intro r hrr
  rw [List.all_eq_true]
  intro c hcc
  have hr : r < rows := List.mem_range.mp hrr
  have hc : c < cols := List.mem_range.mp hcc
  rw [getCell_createTiles rows cols r c hr hc]
  simp [createTiles]

/-! ### Neighbor lemmas -/

theorem mem_if_singleton {p : Prop} [Decidable p] {x t : Nat × Nat} :
    (t ∈ if p then [x] else ([] : List (Nat × Nat))) ↔ p ∧ t = x := by
  split_ifs with h <;> simp [h]

theorem mem_neighbors_iff {b : Board} {er ec : Nat} {t : Nat × Nat} :
    t ∈ b.neighbors er ec ↔
      (er > 0 ∧ t = (er - 1, ec)) ∨ (er < b.rows - 1 ∧ t = (er + 1, ec)) ∨
      (ec > 0 ∧ t = (er, ec - 1)) ∨ (ec < b.cols - 1 ∧ t = (er, ec + 1)) := by
  unfold Board.neighbors
  simp only [List.mem_append, mem_if_singleton, or_assoc]

theorem mem_neighbors_bounds {b : Board} {er ec : Nat} {t : Nat × Nat}
    (her : er < b.rows) (hec : ec < b.cols) (ht : t ∈ b.neighbors er ec) :
    t.1 < b.rows ∧ t.2 < b.cols ∧ t ≠ (er, ec) := by
  rcases mem_neighbors_iff.mp ht with ⟨h, rfl⟩ | ⟨h, rfl⟩ | ⟨h, rfl⟩ | ⟨h, rfl⟩ <;>
    refine ⟨by simp; omega, by simp; omega, ?_⟩ <;>
    · intro hEq
      rw [Prod.mk.injEq] at hEq
      omega

theorem mem_neighbors_symm {b : Board} {er ec : Nat} {t : Nat × Nat}
    (her : er < b.rows) (hec : ec < b.cols) (ht : t ∈ b.neighbors er ec) :
    (er, ec) ∈ b.neighbors t.1 t.2 := by
  rcases mem_neighbors_iff.mp ht with ⟨h, rfl⟩ | ⟨h, rfl⟩ | ⟨h, rfl⟩ | ⟨h, rfl⟩ <;>
    rw [mem_neighbors_iff]
  · exact Or.inr (Or.inl ⟨by simp; omega, by rw [Prod.mk.injEq]; exact ⟨by simp; omega, rfl⟩⟩)
  · exact Or.inl ⟨by simp, by rw [Prod.mk.injEq]; exact ⟨by simp, rfl⟩⟩
  · exact Or.inr (Or.inr (Or.inr ⟨by simp; omega, by rw [Prod.mk.injEq]; exact ⟨rfl, by simp; omega⟩⟩))
  · exact Or.inr (Or.inr (Or.inl ⟨by simp, by rw [Prod.mk.injEq]; exact ⟨rfl, by simp⟩⟩))

theorem neighbors_ne_nil {b : Board} {er ec : Nat} (her : er < b.rows)
    (hec : ec < b.cols) (h2 : 2 ≤ b.rows ∨ 2 ≤ b.cols) :
    b.neighbors er ec ≠ [] := by
  intro hnil
  have hnone : ∀ t, t ∉ b.neighbors er ec := by simp [hnil]
  rcases h2 with h | h
  · by_cases h0 : er > 0
    · exact hnone (er - 1, ec) (mem_neighbors_iff.mpr (Or.inl ⟨h0, rfl⟩))
    · exact hnone (er + 1, ec)
        (mem_neighbors_iff.mpr (Or.inr (Or.inl ⟨by omega, rfl⟩)))
  · by_cases h0 : ec > 0
    · exact hnone (er, ec - 1)
        (mem_neighbors_iff.mpr (Or.inr (Or.inr (Or.inl ⟨h0, rfl⟩))))
    · exact hnone (er, ec + 1)
        (mem_neighbors_iff.mpr (Or.inr (Or.inr (Or.inr ⟨by omega, rfl⟩))))

/-! ### Preservation of the board invariant -/

theorem getCell_bounds {t : List (List Nat)} {rows cols r c v : Nat}
    (hlen : t.length = rows) (hrows : ∀ row ∈ t, row.length = cols)
    (h : getCell t r c = some v) : r < rows ∧ c < cols := by
  rcases getCell_eq_some.mp h with ⟨row, hrg, hcg⟩
  have hr := (List.getElem?_eq_some.mp hrg).1
  have hc := (List.getElem?_eq_some.mp hcg).1
  exact ⟨hlen ▸ hr, (hrows _ (List.getElem?_mem hrg)) ▸ hc⟩

theorem setCell_comm {t : List (List Nat)} {r c r' c' : Nat} (v w : Nat)
    (h : (r, c) ≠ (r', c')) :
    setCell (setCell t r c v) r' c' w = setCell (setCell t r' c' w) r c v := by
  by_cases hrr : r = r'
  · subst hrr
    have hcc : c ≠ c' := fun hc => h (by rw [hc])
    cases hrg : t[r]? with
    | none => simp only [setCell_of_none hrg]
    | some row =>
      have hr : r < t.length := (List.getElem?_eq_some.mp hrg).1
      have h1 : (t.set r (row.set c v))[r]? = some (row.set c v) :=
        List.getElem?_set_self (by simpa using hr)
      have h2 : (t.set r (row.set c' w))[r]? = some (row.set c' w) :=
        List.getElem?_set_self (by simpa using hr)
      rw [setCell_of_getElem hrg, setCell_of_getElem h1,
        setCell_of_getElem hrg, setCell_of_getElem h2,
        List.set_set, List.set_set, List.set_comm _ _ _ hcc]
  · cases hrg : t[r]? with
    | none =>
      cases hrg' : t[r']? with
      | none => simp only [setCell_of_none hrg, setCell_of_none hrg']
      | some row' =>
        have hrg2 : (t.set r' (row'.set c' w))[r]? = none := by
          rw [List.getElem?_set_ne (Ne.symm hrr)]
          exact hrg
        simp only [setCell_of_none hrg, setCell_of_getElem hrg',
          setCell_of_none hrg2]
    | some row =>
      cases hrg' : t[r']? with
      | none =>
        have hrg2 : (t.set r (row.set c v))[r']? = none := by
          rw [List.getElem?_set_ne hrr]
          exact hrg'
        simp only [setCell_of_getElem hrg, setCell_of_none hrg2,
          setCell_of_none hrg']
      | some row' =>
        have h1 : (t.set r (row.set c v))[r']? = some row' := by
          rw [List.getElem?_set_ne hrr]
          exact hrg'
        have h2 : (t.set r' (row'.set c' w))[r]? = some row := by
          rw [List.getElem?_set_ne (Ne.symm hrr)]
          exact hrg
        rw [setCell_of_getElem hrg, setCell_of_getElem h1,
          setCell_of_getElem hrg', setCell_of_getElem h2,
          List.set_comm _ _ _ hrr]

theorem swap_tiles_eq {b : Board} {pa pb : Nat × Nat} {va vb : Nat}
    (ha : getCell b.tiles pa.1 pa.2 = some va)
    (hb : getCell b.tiles pb.1 pb.2 = some vb) :
    b.swap pa pb =
      { b with tiles := setCell (setCell b.tiles pa.1 pa.2 vb) pb.1 pb.2 va } := by
  unfold Board.swap
  rw [ha, hb]
  rfl

theorem click_at_noop_none {b : Board} {t : Nat × Nat}
    (hg : getCell b.tiles t.1 t.2 = none) : b.click_at t = b := by
  unfold Board.click_at
  rw [hg]

theorem click_at_noop {b : Board} {t : Nat × Nat} {n : Nat}
    (hg : getCell b.tiles t.1 t.2 = some n)
    (h : ¬(n ≠ 0 ∧ t ∈ b.neighbors b.empty_pos.1 b.empty_pos.2)) :
    b.click_at t = b := by
  unfold Board.click_at
  rw [hg]
  simp only [if_neg h]

theorem click_at_move {b : Board} {t : Nat × Nat} {n z : Nat}
    (hg : getCell b.tiles t.1 t.2 = some n)
    (he : getCell b.tiles b.empty_pos.1 b.empty_pos.2 = some z)
    (hn : n ≠ 0) (hmem : t ∈ b.neighbors b.empty_pos.1 b.empty_pos.2) :
    b.click_at t =
      { b with
        tiles := setCell (setCell b.tiles t.1 t.2 z)
          b.empty_pos.1 b.empty_pos.2 n,
        empty_pos := t } := by
  unfold Board.click_at
  rw [hg]
  simp only [if_pos (And.intro hn hmem)]
  rw [swap_tiles_eq hg he]

theorem wf_swap_empty {b : Board} {t : Nat × Nat} {n : Nat} (h : b.wf)
    (hg : getCell b.tiles t.1 t.2 = some n) (htne : t ≠ b.empty_pos) :
    Board.wf
      { b with
        tiles := setCell (setCell b.tiles t.1 t.2 0)
          b.empty_pos.1 b.empty_pos.2 n,
        empty_pos := t } := by
  obtain ⟨hlen, hrows, hperm, hempty⟩ := h
  have hne12 : (t.1, t.2) ≠ (b.empty_pos.1, b.empty_pos.2) := by
    simpa using htne
  refine ⟨?_, ?_, ?_, ?_⟩
  · show (setCell _ _ _ _).length = b.rows
    rw [length_setCell, length_setCell]
    exact hlen
  · exact rows_setCell (rows_setCell hrows _ _ _) _ _ _
  · show (setCell (setCell b.tiles t.1 t.2 0)
        b.empty_pos.1 b.empty_pos.2 n).flatten.Perm _
    exact (perm_swap_setCell b.tiles t.1 t.2 b.empty_pos.1 b.empty_pos.2
      n 0 hg hempty hne12).trans hperm
  · show getCell (setCell (setCell b.tiles t.1 t.2 0)
        b.empty_pos.1 b.empty_pos.2 n) t.1 t.2 = some 0
    rw [getCell_setCell_ne n (Ne.symm hne12)]
    exact getCell_setCell_self 0 hg

theorem wf_click_at {b : Board} (t : Nat × Nat) (h : b.wf) :
    (b.click_at t).wf := by
  cases hg : getCell b.tiles t.1 t.2 with
  | none =>
    rw [click_at_noop_none hg]
    exact h
  | some n =>
    by_cases hcond : n ≠ 0 ∧ t ∈ b.neighbors b.empty_pos.1 b.empty_pos.2
    · obtain ⟨hn, hmem⟩ := hcond
      have hb := h
      obtain ⟨hlen, hrows, hperm, hempty⟩ := h
      have hbe := getCell_bounds hlen hrows hempty
      have hbt := mem_neighbors_bounds hbe.1 hbe.2 hmem
      have htne : t ≠ b.empty_pos := by
        intro hEq
        exact hbt.2.2 (by rw [hEq])
      rw [click_at_move hg hempty hn hmem]
      exact wf_swap_empty hb hg htne
    · rw [click_at_noop hg hcond]
      exact h

theorem shuffleStep_inv {b b' : Board} {k : Nat}
    (h : b.shuffleStep k = some b') :
    ∃ t, t ∈ b.neighbors b.empty_pos.1 b.empty_pos.2 ∧
      b' = { b.swap b.empty_pos t with empty_pos := t } := by
  unfold Board.shuffleStep at h
  cases hget : (b.neighbors b.empty_pos.1 b.empty_pos.2)[
      k % (b.neighbors b.empty_pos.1 b.empty_pos.2).length]? with
  | none => rw [hget] at h; cases h
  | some target =>
    rw [hget] at h
    exact ⟨target, List.getElem?_mem hget, (Option.some.injEq _ _ ▸ h).symm⟩

theorem shuffleStep_isSome {b : Board} (k : Nat)
    (hne : b.neighbors b.empty_pos.1 b.empty_pos.2 ≠ []) :
    ∃ b', b.shuffleStep k = some b' := by
  unfold Board.shuffleStep
  have hlen : 0 < (b.neighbors b.empty_pos.1 b.empty_pos.2).length :=
    List.length_pos.mpr hne
  rw [List.getElem?_eq_getElem (Nat.mod_lt _ hlen)]
  exact ⟨_, rfl⟩

theorem wf_shuffleStep {b b' : Board} {k : Nat} (h : b.wf)
    (hs : b.shuffleStep k = some b') : b'.wf := by
  obtain ⟨t, hmem, rfl⟩ := shuffleStep_inv hs
  have hb := h
  obtain ⟨hlen, hrows, hperm, hempty⟩ := h
  have hbe := getCell_bounds hlen hrows hempty
  have hbt := mem_neighbors_bounds hbe.1 hbe.2 hmem
  obtain ⟨n, hn⟩ := getCell_isSome_of_shape hlen hrows hbt.1 hbt.2.1
  have htne : t ≠ b.empty_pos := by
    intro hEq
    exact hbt.2.2 (by rw [hEq])
  have hne12 : (t.1, t.2) ≠ (b.empty_pos.1, b.empty_pos.2) := by
    simpa using htne
  rw [swap_tiles_eq hempty hn]
  rw [show setCell (setCell b.tiles b.empty_pos.1 b.empty_pos.2 n) t.1 t.2 0
      = setCell (setCell b.tiles t.1 t.2 0) b.empty_pos.1 b.empty_pos.2 n from
    setCell_comm n 0 (Ne.symm hne12)]
  exact wf_swap_empty hb hn htne

theorem wf_shuffle {b b' : Board} {ks : List Nat} (h : b.wf)
    (hs : b.shuffle ks = some b') : b'.wf := by
  induction ks generalizing b with
  | nil =>
    unfold Board.shuffle at hs
    simp only [List.foldlM_nil] at hs
    cases hs
    exact h
  | cons k ks ih =>
    unfold Board.shuffle at hs
    rw [List.foldlM_cons] at hs
    cases hstep : b.shuffleStep k with
    | none => rw [hstep] at hs; cases hs
    | some b1 =>
      rw [hstep] at hs
      exact ih (wf_shuffleStep h hstep) hs

/-! ### The empty slot is the unique cell holding 0 -/

theorem getCell_flatten : ∀ (t : List (List Nat)) (cols r c v : Nat),
    (∀ row ∈ t, row.length = cols) → getCell t r c = some v →
    t.flatten[r * cols + c]? = some v := by
  intro t
  induction t with
  | nil =>
    intro cols r c v _ h
    simp [getCell] at h
  | cons row rest ih =>
    intro cols r c v hrows h
    have hrowlen : row.length = cols := hrows row (by simp)
    cases r with
    | zero =>
      have hc : row[c]? = some v := by simpa [getCell] using h
      have hcl : c < row.length := (List.getElem?_eq_some.mp hc).1
      rw [List.flatten_cons]
      have : (0 : Nat) * cols + c = c := by omega
      rw [this, List.getElem?_append_left hcl]
      exact hc
    | succ n =>
      have h' : getCell rest n c = some v := by simpa [getCell] using h
      have hind := ih cols n c v
        (fun row' hm => hrows row' (List.mem_cons_of_mem _ hm)) h'
      rw [List.flatten_cons]
      have hle : row.length ≤ (n + 1) * cols + c := by
        rw [hrowlen, Nat.succ_mul]
        omega
      rw [List.getElem?_append_right hle]
      have : (n + 1) * cols + c - row.length = n * cols + c := by
        rw [hrowlen, Nat.succ_mul]
        omega
      rw [this]
      exact hind

theorem flat_index_inj {cols r c r' c' : Nat} (hc : c < cols) (hc' : c' < cols)
    (hEq : r * cols + c = r' * cols + c') : r = r' ∧ c = c' := by
  have hr : r = r' := by
    by_contra hne
    rcases Nat.lt_or_ge r r' with hlt | hge
    · have h1 : (r + 1) * cols ≤ r' * cols := Nat.mul_le_mul_right _ hlt
      rw [Nat.succ_mul] at h1
      omega
    · have hlt' : r' + 1 ≤ r := by omega
      have h1 : (r' + 1) * cols ≤ r * cols := Nat.mul_le_mul_right _ hlt'
      rw [Nat.succ_mul] at h1
      omega
  subst hr
  exact ⟨rfl, by omega⟩

theorem two_le_count_of_getElem : ∀ (l : List Nat) (i j v : Nat), i ≠ j →
    l[i]? = some v → l[j]? = some v → 2 ≤ l.count v := by
  intro l
  induction l with
  | nil =>
    intro i j v _ hi _
    simp at hi
  | cons hd tl ih =>
    intro i j v hij hi hj
    cases i with
    | zero =>
      cases j with
      | zero => exact absurd rfl hij
      | succ m =>
        have hhd : hd = v := by simpa using hi
        have hj' : tl[m]? = some v := by simpa using hj
        have h1 : 0 < tl.count v :=
          List.count_pos_iff.mpr (List.getElem?_mem hj')
        subst hhd
        rw [List.count_cons_self]
        omega
    | succ m =>
      cases j with
      | zero =>
        have hhd : hd = v := by simpa using hj
        have hi' : tl[m]? = some v := by simpa using hi
        have h1 : 0 < tl.count v :=
          List.count_pos_iff.mpr (List.getElem?_mem hi')
        subst hhd
        rw [List.count_cons_self]
        omega
      | succ m' =>
        have h2 : 2 ≤ tl.count v := ih m m' v (by omega)
          (by simpa using hi) (by simpa using hj)
        rw [List.count_cons]
        omega

theorem getCell_zero_eq_empty {b : Board} (h : b.wf) {r c : Nat}
    (hg : getCell b.tiles r c = some 0) : (r, c) = b.empty_pos := by
  obtain ⟨hlen, hrows, hperm, hempty⟩ := h
  unfold Board.flatTiles at hperm
  by_contra hne
  have h1 := getCell_flatten b.tiles b.cols r c 0 hrows hg
  have h2 := getCell_flatten b.tiles b.cols b.empty_pos.1 b.empty_pos.2 0
    hrows hempty
  have hc : c < b.cols := (getCell_bounds hlen hrows hg).2
  have hc' : b.empty_pos.2 < b.cols := (getCell_bounds hlen hrows hempty).2
  have hidx : r * b.cols + c ≠ b.empty_pos.1 * b.cols + b.empty_pos.2 := by
    intro hEq
    obtain ⟨hr1, hc1⟩ := flat_index_inj hc hc' hEq
    exact hne (by rw [hr1, hc1])
  have h2c := two_le_count_of_getElem b.tiles.flatten _ _ 0 hidx h1 h2
  have hn1 : 0 < b.rows * b.cols := by
    have hl := (List.getElem?_eq_some.mp h1).1
    have := hperm.length_eq
    rw [List.length_range] at this
    omega
  have hcount : b.tiles.flatten.count 0 = 1 := by
    rw [List.perm_iff_count.mp hperm 0]
    exact List.count_eq_one_of_mem (List.nodup_range _)
      (List.mem_range.mpr hn1)
  omega

/-! ### Shuffle steps are undone by a click -/

theorem neighbors_fields {b b' : Board} (hrows : b.rows = b'.rows)
    (hcols : b.cols = b'.cols) (r c : Nat) :
    b.neighbors r c = b'.neighbors r c := by
  unfold Board.neighbors
  rw [hrows, hcols]

theorem click_at_undo {b b' : Board} {k : Nat} (h : b.wf)
    (hs : b.shuffleStep k = some b') : b'.click_at b.empty_pos = b := by
  obtain ⟨t, hmem, rfl⟩ := shuffleStep_inv hs
  have hb := h
  obtain ⟨hlen, hrows, hperm, hempty⟩ := h
  have hbe := getCell_bounds hlen hrows hempty
  have hbt := mem_neighbors_bounds hbe.1 hbe.2 hmem
  obtain ⟨n, hn⟩ := getCell_isSome_of_shape hlen hrows hbt.1 hbt.2.1
  have htne : t ≠ b.empty_pos := by
    intro hEq
    exact hbt.2.2 (by rw [hEq])
  have hne12 : (t.1, t.2) ≠ (b.empty_pos.1, b.empty_pos.2) := by
    simpa using htne
  have hnz : n ≠ 0 := by
    intro h0
    subst h0
    exact htne (by simpa using getCell_zero_eq_empty hb hn)
  rw [swap_tiles_eq hempty hn]
  set T₂ : List (List Nat) :=
    setCell (setCell b.tiles b.empty_pos.1 b.empty_pos.2 n) t.1 t.2 0 with hT₂
  set B : Board := { b with tiles := T₂, empty_pos := t } with hB
  have hBg : getCell B.tiles b.empty_pos.1 b.empty_pos.2 = some n := by
    show getCell T₂ b.empty_pos.1 b.empty_pos.2 = some n
    rw [hT₂, getCell_setCell_ne 0 hne12]
    exact getCell_setCell_self n hempty
  have hstep : getCell (setCell b.tiles b.empty_pos.1 b.empty_pos.2 n)
      t.1 t.2 = some n := by
    rw [getCell_setCell_ne n hne12.symm]
    exact hn
  have hBe : getCell B.tiles B.empty_pos.1 B.empty_pos.2 = some 0 := by
    show getCell T₂ t.1 t.2 = some 0
    rw [hT₂]
    exact getCell_setCell_self 0 hstep
  have hmem' : b.empty_pos ∈ B.neighbors B.empty_pos.1 B.empty_pos.2 := by
    show b.empty_pos ∈ B.neighbors t.1 t.2
    rw [← @neighbors_fields b B rfl rfl t.1 t.2]
    have := mem_neighbors_symm hbe.1 hbe.2 hmem
    simpa using this
  rw [click_at_move hBg hBe hnz hmem']
  show ({ b with
    tiles := setCell (setCell T₂ b.empty_pos.1 b.empty_pos.2 0) t.1 t.2 n,
    empty_pos := b.empty_pos } : Board) = b
  have s1 : setCell T₂ b.empty_pos.1 b.empty_pos.2 0
      = setCell b.tiles t.1 t.2 0 := by
    rw [hT₂, setCell_comm 0 0 hne12, setCell_setCell_same,
      setCell_eq_self_of_getCell hempty]
  have htiles : setCell (setCell T₂ b.empty_pos.1 b.empty_pos.2 0) t.1 t.2 n
      = b.tiles := by
    rw [s1, setCell_setCell_same, setCell_eq_self_of_getCell hn]
  rw [htiles]

/-! ### Solvability -/

theorem solvable_createTiles (rows cols : Nat) :
    (createTiles rows cols).Solvable :=
  ⟨[], by simpa using is_solved_createTiles rows cols⟩

theorem solvable_shuffleStep {b b' : Board} {k : Nat} (h : b.wf)
    (hsolv : b.Solvable) (hs : b.shuffleStep k = some b') : b'.Solvable := by
  obtain ⟨seq, hseq⟩ := hsolv
  refine ⟨b.empty_pos :: seq, ?_⟩
  rw [List.foldl_cons, click_at_undo h hs]
  exact hseq

theorem solvable_shuffle {b b' : Board} {ks : List Nat} (h : b.wf)
    (hsolv : b.Solvable) (hs : b.shuffle ks = some b') : b'.Solvable := by
  induction ks generalizing b with
  | nil =>
    unfold Board.shuffle at hs
    simp only [List.foldlM_nil] at hs
    cases hs
    exact hsolv
  | cons k ks ih =>
    unfold Board.shuffle at hs
    rw [List.foldlM_cons] at hs
    cases hstep : b.shuffleStep k with
    | none => rw [hstep] at hs; cases hs
    | some b1 =>
      rw [hstep] at hs
      exact ih (wf_shuffleStep h hstep) (solvable_shuffleStep h hsolv hstep) hs

theorem shuffleStep_fields {b b' : Board} {k : Nat}
    (h : b.shuffleStep k = some b') : b'.rows = b.rows ∧ b'.cols = b.cols := by
  obtain ⟨t, _, rfl⟩ := shuffleStep_inv h
  exact ⟨rfl, rfl⟩

theorem shuffle_isSome {b : Board} (hwf : b.wf)
    (h2 : 2 ≤ b.rows ∨ 2 ≤ b.cols) (ks : List Nat) :
    (b.shuffle ks).isSome = true := by
  induction ks generalizing b with
  | nil => simp [Board.shuffle]
  | cons k ks ih =>
    obtain ⟨hlen, hrows, hperm, hempty⟩ := hwf
    have hbe := getCell_bounds hlen hrows hempty
    obtain ⟨b1, hb1⟩ := shuffleStep_isSome k (neighbors_ne_nil hbe.1 hbe.2 h2)
    unfold Board.shuffle
    rw [List.foldlM_cons, hb1]
    have hfields := shuffleStep_fields hb1
    exact ih (wf_shuffleStep ⟨hlen, hrows, hperm, hempty⟩ hb1)
      (by rw [hfields.1, hfields.2]; exact h2)

/-! ### The claims about the board -/

/-- C4: under the board invariant, a click on cell t swaps t with the
    empty slot and moves empty_pos to t exactly when t is grid-adjacent
    to the empty slot; any other click (non-adjacent cell, the empty cell
    itself, or a position outside the grid) leaves the board completely
    unchanged, and click_at is a total function, so no error is raised. -/
theorem C4_click_iff {b : Board} (t : Nat × Nat) (h : b.wf) :
    (t ∈ b.neighbors b.empty_pos.1 b.empty_pos.2 →
      (b.click_at t).empty_pos = t ∧
      getCell (b.click_at t).tiles t.1 t.2 = some 0 ∧
      getCell (b.click_at t).tiles b.empty_pos.1 b.empty_pos.2
        = getCell b.tiles t.1 t.2 ∧
      ∀ r c, (r, c) ≠ t → (r, c) ≠ b.empty_pos →
        getCell (b.click_at t).tiles r c = getCell b.tiles r c) ∧
    (t ∉ b.neighbors b.empty_pos.1 b.empty_pos.2 → b.click_at t = b) ∧
    b.empty_pos ∉ b.neighbors b.empty_pos.1 b.empty_pos.2 := by
  have hb := h
  obtain ⟨hlen, hrows, hperm, hempty⟩ := h
  have hbe := getCell_bounds hlen hrows hempty
  refine ⟨?_, ?_, fun hmem =>
    (mem_neighbors_bounds hbe.1 hbe.2 hmem).2.2 (Prod.mk.eta).symm⟩
  · intro hmem
    have hbt := mem_neighbors_bounds hbe.1 hbe.2 hmem
    have htne : t ≠ b.empty_pos := by
      intro hEq
      exact hbt.2.2 (by rw [hEq])
    have hne12 : (t.1, t.2) ≠ (b.empty_pos.1, b.empty_pos.2) := by
      simpa using htne
    obtain ⟨n, hn⟩ := getCell_isSome_of_shape hlen hrows hbt.1 hbt.2.1
    have hnz : n ≠ 0 := by
      intro h0
      subst h0
      exact htne (by simpa using getCell_zero_eq_empty hb hn)
    rw [click_at_move hn hempty hnz hmem]
    refine ⟨rfl, ?_, ?_, ?_⟩
    · show getCell (setCell (setCell b.tiles t.1 t.2 0)
          b.empty_pos.1 b.empty_pos.2 n) t.1 t.2 = some 0
      rw [getCell_setCell_ne n (Ne.symm hne12)]
      exact getCell_setCell_self 0 hn
    · show getCell (setCell (setCell b.tiles t.1 t.2 0)
          b.empty_pos.1 b.empty_pos.2 n) b.empty_pos.1 b.empty_pos.2
        = getCell b.tiles t.1 t.2
      rw [hn]
      apply getCell_setCell_self
      rw [getCell_setCell_ne 0 hne12]
      exact hempty
    · intro r c hrt hre
      show getCell (setCell (setCell b.tiles t.1 t.2 0)
          b.empty_pos.1 b.empty_pos.2 n) r c = getCell b.tiles r c
      have h1 : (b.empty_pos.1, b.empty_pos.2) ≠ (r, c) := by
        intro hEq
        exact hre (by rw [← hEq])
      have h2 : (t.1, t.2) ≠ (r, c) := by
        intro hEq
        exact hrt (by rw [← hEq])
      rw [getCell_setCell_ne n h1, getCell_setCell_ne 0 h2]
  · intro hmem
    cases hg : getCell b.tiles t.1 t.2 with
    | none => exact click_at_noop_none hg
    | some n =>
      exact click_at_noop hg (fun hcond => hmem hcond.2)

/-- C4 witness: on a freshly created 2x2 board, clicking (0, 1), which is
    adjacent to the empty slot (1, 1), moves the empty slot there. -/
theorem C4_click_iff_witness :
    ((createTiles 2 2).click_at (0, 1)).empty_pos = (0, 1) ∧
    getCell ((createTiles 2 2).click_at (0, 1)).tiles 0 1 = some 0 :=
  have h := (@C4_click_iff (createTiles 2 2) (0, 1) (by decide)).1 (by decide)
  ⟨h.1, h.2.1⟩

/-- C5: every board the game can reach (construction, clicks, shuffles)
    satisfies the invariant: the grid has shape rows x cols, the tile
    numbers are a permutation of 0..rows*cols-1 (so there are no
    duplicates and exactly one tile holds 0), and empty_pos is the grid
    location of the 0 tile. -/
theorem C5_reachable_wf {b : Board} (h : Reachable b) :
    b.wf ∧ b.flatTiles.Perm (List.range (b.rows * b.cols)) ∧
    b.flatTiles.count 0 = 1 ∧
    getCell b.tiles b.empty_pos.1 b.empty_pos.2 = some 0 := by
  have hwf : b.wf := by
    induction h with
    | init rows cols ks b hr hc hinit =>
      exact wf_shuffle (wf_createTiles rows cols hr hc) hinit
    | click b t _ ih => exact wf_click_at t ih
    | shuffled b ks b' _ hs ih => exact wf_shuffle ih hs
  obtain ⟨hlen, hrows, hperm, hempty⟩ := hwf
  refine ⟨⟨hlen, hrows, hperm, hempty⟩, hperm, ?_, hempty⟩
  have hbe := getCell_bounds hlen hrows hempty
  have hpos : 0 < b.rows * b.cols := Nat.mul_pos (by omega) (by omega)
  rw [List.perm_iff_count.mp hperm 0]
  exact List.count_eq_one_of_mem (List.nodup_range _) (List.mem_range.mpr hpos)

/-- C5 witness at the constructed 2x2 board (empty choice stream). -/
theorem C5_reachable_wf_witness :
    (createTiles 2 2).wf ∧
    (createTiles 2 2).flatTiles.Perm
      (List.range ((createTiles 2 2).rows * (createTiles 2 2).cols)) ∧
    (createTiles 2 2).flatTiles.count 0 = 1 ∧
    getCell (createTiles 2 2).tiles (createTiles 2 2).empty_pos.1
      (createTiles 2 2).empty_pos.2 = some 0 :=
  C5_reachable_wf (Reachable.init 2 2 [] _ (by decide) (by decide) rfl)

/-- C6: a board built by the constructor (any choice stream for its 80
    shuffle moves) and then shuffled any further number of times is
    always solvable: some finite sequence of legal clicks reaches the
    solved configuration, because shuffling only performs legal moves
    starting from the solved grid. -/
theorem C6_shuffled_boards_solvable {rows cols : Nat} (hr : 1 ≤ rows)
    (hc : 1 ≤ cols) {ks ks' : List Nat} {b b' : Board}
    (hinit : Board.init rows cols ks = some b)
    (hs : b.shuffle ks' = some b') : b'.Solvable := by
  have hwf0 := wf_createTiles rows cols hr hc
  have hwf : b.wf := wf_shuffle hwf0 hinit
  have hsolv : b.Solvable :=
    solvable_shuffle hwf0 (solvable_createTiles rows cols) hinit
  exact solvable_shuffle hwf hsolv hs

/-- C6 witness: the 2x2 board built with empty choice streams is
    solvable. -/
theorem C6_shuffled_boards_solvable_witness : (createTiles 2 2).Solvable :=
  @C6_shuffled_boards_solvable 2 2 (by decide) (by decide) [] []
    (createTiles 2 2) (createTiles 2 2) rfl rfl

/-- C8 counterexample: construction does not reject rows < 2: a 1x3 board
    (rows = 1) is built successfully, with the constructor's 80 shuffle
    moves included. -/
theorem C8_counterexample :
    (Board.init 1 3 (List.replicate 80 0)).isSome = true := by decide

/-- C8 amended: the constructor performs no dimension validation. For all
    rows, cols at least 1 it builds the row-major sequential grid (number
    = row*cols + col + 1) with the sentinel 0 at the bottom-right cell and
    empty_pos there, then shuffles 80 times; construction succeeds
    whenever the board has a legal move (rows or cols at least 2), and the
    degenerate 1x1 board fails only incidentally, inside shuffle, because
    random.choice is applied to the empty neighbor list. -/
theorem C8_construction_no_validation (rows cols : Nat) (hr : 1 ≤ rows)
    (hc : 1 ≤ cols) (ks : List Nat) :
    (∀ r c, r < rows → c < cols →
      getCell (createTiles rows cols).tiles r c =
        some (if r = rows - 1 ∧ c = cols - 1 then 0 else r * cols + c + 1)) ∧
    (createTiles rows cols).empty_pos = (rows - 1, cols - 1) ∧
    (2 ≤ rows ∨ 2 ≤ cols → (Board.init rows cols ks).isSome = true) ∧
    (rows = 1 → cols = 1 → ks ≠ [] → Board.init rows cols ks = none) := by
  refine ⟨fun r c hrr hcc => getCell_createTiles rows cols r c hrr hcc,
    rfl, ?_, ?_⟩
  · intro h2
    exact shuffle_isSome (wf_createTiles rows cols hr hc) h2 ks
  · rintro rfl rfl hks
    cases ks with
    | nil => exact absurd rfl hks
    | cons k ks =>
      unfold Board.init Board.shuffle
      rw [List.foldlM_cons]
      have hstep : (createTiles 1 1).shuffleStep k = none := by
        unfold Board.shuffleStep
        have hnb : (createTiles 1 1).neighbors (createTiles 1 1).empty_pos.1
            (createTiles 1 1).empty_pos.2 = [] := by decide
        rw [hnb]
        simp
      rw [hstep]
      rfl

/-- C8 witness: the amended statement applied to a 2x2 board with the
    empty choice stream. -/
theorem C8_construction_no_validation_witness :
    getCell (createTiles 2 2).tiles 0 1 = some 2 ∧
    (createTiles 2 2).empty_pos = (1, 1) ∧
    (Board.init 2 2 []).isSome = true := by
  have h := C8_construction_no_validation 2 2 (by decide) (by decide) []
  exact ⟨by simpa using h.1 0 1 (by decide) (by decide), h.2.1,
    h.2.2.1 (by decide)⟩

/-- C3, code evaluated at the failing input: starting a 3x3 level while
    progress["best_moves"]["3x3"] = 18 (as after an earlier solve in the
    same session) initializes the session move counter to the stored best
    18, not 0; with no stored best it does start at 0. -/
theorem C3_move_counter_starts_at_stored_best :
    startGameMoveCount ⟨some [("3x3", 18)], some [("3x3", 3)]⟩ 3 = 18 ∧
    startGameMoveCount ⟨none, none⟩ 3 = 0 :=
  ⟨rfl, rfl⟩

end AetherialGardens
